import Mathlib

/-!
# Verification of the alkali object store core

Shallow embedding of the repository's source files:

* `src/redb/fields.py` — the field descriptor system (`Field.__init__`,
  `Field.cast`, `DateField.cast`, `tzadd`);
* `src/alkali/model.py` — model instances (`Model.__assign_field`,
  `Model.dirty`, `Model.pk`, `Model.__eq__`, `Model.__ne__`, `Model.save`);
* `src/alkali/manager.py` — the collection owner (`Manager.save`,
  `Manager.clear`, `Manager.delete`, `Manager.store`, `Manager.load`,
  `Manager.sorter`, the aggregate `Manager.dirty` property).

Python values that occur as field values in this code base (none, int,
str, datetime) are embedded as `PyScalar`; a datetime is reduced to an
instant `t : Int` (minutes) together with an awareness flag — `tzadd`
attaches the default timezone without moving the instant, so awareness is
the only datetime aspect the verified claims depend on.  Primary keys are
a single scalar or (for multi-field primary keys) a tuple of scalars
(`PK.many`), exactly as `Model.pk` produces them.
-/

namespace Alkali

/-- A datetime instant: `t` is the timestamp (minutes), `aware` records
whether the value carries timezone information.  Python 2 refuses to
order naive against aware datetimes; the embedding totalises the order by
instant first and awareness second (never exercised by the claims). -/
structure DT where
  t : Int
  aware : Bool
deriving DecidableEq

/-- The Python scalar values used as field values in this repository. -/
inductive PyScalar where
  | none
  | int (z : Int)
  | str (s : String)
  | date (d : DT)
deriving DecidableEq

/-- A primary key as produced by `Model.pk`: the sole primary-key field's
value, or a tuple of values when several fields are declared primary. -/
inductive PK where
  | one (v : PyScalar)
  | many (vs : List PyScalar)
deriving DecidableEq

/-- Python 2 cross-type ordering rank: `None` is smallest, numbers come
next, the remaining types are ordered alphabetically by type name
(`'datetime.datetime' < 'str' < 'tuple'`). -/
def PyScalar.rank : PyScalar → Nat
  | .none => 0
  | .int _ => 1
  | .date _ => 2
  | .str _ => 3

/-- The `sorted()` comparison on scalars (Python 2 semantics): by rank, then
within a type by value. -/
def scalarLe : PyScalar → PyScalar → Bool
  | .none, _ => true
  | _, .none => false
  | .int a, .int b => decide (a ≤ b)
  | .int _, _ => true
  | _, .int _ => false
  | .date a, .date b => decide (a.t < b.t) || (decide (a.t = b.t) && (!a.aware || b.aware))
  | .date _, _ => true
  | _, .date _ => false
  | .str a, .str b => decide (a ≤ b)

/-- Lexicographic comparison of tuples, as Python compares them:
equal heads are skipped, the first differing position decides. -/
def listLe : List PyScalar → List PyScalar → Bool
  | [], _ => true
  | _ :: _, [] => false
  | a :: as, b :: bs => if a = b then listLe as bs else scalarLe a b

/-- The `sorted()` comparison on primary keys.  Every scalar type ranks below
a tuple in Python 2 type ordering. -/
def pkLe : PK → PK → Bool
  | .one a, .one b => scalarLe a b
  | .one _, .many _ => true
  | .many _, .one _ => false
  | .many a, .many b => listLe a b

/-! ## `sorted(keys)` — the key sort used by `Manager.sorter` -/

/-- Insert a key into an already key-sorted list (the embedding of
Python's `sorted` is insertion sort; `sorted` is a total sort, so any
comparison-faithful sort yields the same Pairwise-ordered content). -/
def insertKey (k : PK) : List PK → List PK
  | [] => [k]
  | x :: xs => if pkLe k x then k :: x :: xs else x :: insertKey k xs

/-- The embedding of `sorted(elements.keys())` in `Manager.sorter`. -/
def sortKeys : List PK → List PK
  | [] => []
  | k :: ks => insertKey k (sortKeys ks)

/-! ## The field system — `src/redb/fields.py` -/

/-- The error outcomes of the embedded operations: a cast failure
(`TypeError`/`ValueError`), the primary-key immutability `RuntimeError`
of `Model.__assign_field`, the `KeyError` of `Manager.load`, the
`AssertionError` of `Manager.save`, and an `AttributeError` from reading
a never-assigned attribute. -/
inductive Err where
  | castErr
  | pkErr
  | keyErr
  | assertErr
  | attrErr
deriving DecidableEq

/-- Embedding of `tzadd` (imported by `redb/fields.py` from the package root; its
definition is absent from `src`).  Modelled from the spec: "naive input is
assigned a default timezone" — it attaches the default timezone, leaving
the instant unchanged. -/
def tzadd (d : DT) : DT := ⟨d.t, true⟩

/-- Modelled from the spec: `dateutil.parser.parse` is an external
library, not code of this repository.  Embedded as a minimal ISO
`YYYY-MM-DD[+HH:MM]` parser mapping a date to an instant in minutes; an
explicit offset yields an aware value, no offset a naive one; an
unparseable string is a failure (dateutil raises).  No verified claim
depends on which strings parse, only on the awareness of the result. -/
def parseDate (s : String) : Option DT :=
  let core_off : String × Option String :=
    match s.splitOn "+" with
    | [c] => (c, Option.none)
    | [c, o] => (c, some o)
    | _ => ("", some "")
  match core_off.1.splitOn "-" with
  | [ys, ms, ds] =>
    match ys.toNat?, ms.toNat?, ds.toNat? with
    | some y, some mo, some da =>
      if 1 ≤ mo ∧ mo ≤ 12 ∧ 1 ≤ da ∧ da ≤ 31 then
        let base : Int := ((((y * 12 + mo) * 31 + da) * 1440 : Nat) : Int)
        match core_off.2 with
        | Option.none => some ⟨base, false⟩
        | some o =>
          match o.splitOn ":" with
          | [hs, mins] =>
            match hs.toNat?, mins.toNat? with
            | some h, some mi => some ⟨base - (h * 60 + mi : Nat), true⟩
            | _, _ => Option.none
          | _ => Option.none
      else Option.none
    | _, _, _ => Option.none
  | _ => Option.none

/-- Decimal digit-string value: one or more digits, anything else
fails. -/
def digitsToNat (cs : List Char) : Option Nat :=
  if cs.isEmpty then Option.none
  else cs.foldl (fun acc c => acc.bind (fun n =>
    if c.isDigit then some (n * 10 + (c.toNat - 48)) else Option.none)) (some 0)

/-- Python's `int()` applied to a string, as invoked by `Field.cast` for
an integer field: an optionally signed decimal numeral (surrounding
spaces stripped) converts, anything else raises. -/
def pyIntOfStr (s : String) : Option Int :=
  let cs := ((s.data.dropWhile (fun c => c = ' ')).reverse.dropWhile
    (fun c => c = ' ')).reverse
  match cs with
  | '-' :: rest => (digitsToNat rest).map (fun n => -(n : Int))
  | '+' :: rest => (digitsToNat rest).map (fun n => (n : Int))
  | rest => (digitsToNat rest).map (fun n => (n : Int))

/-- Python's `str()` conversion, as invoked by `Field.cast` for a string
field; `str()` never fails, and only stringhood of the result is
load-bearing for the claims. -/
def pyStrOf : PyScalar → String
  | .none => "None"
  | .int z => toString z
  | .str s => s
  | .date d => "datetime(" ++ toString d.t ++ ")"

/-- The field descriptors declared in `src/redb/fields.py` that carry
distinct cast behaviour: `IntField`, `StringField` (base `Field.cast`),
and `DateField` (overridden `cast`). -/
inductive FieldKind where
  | intF
  | strF
  | dateF
deriving DecidableEq

/-- Embedding of `DateField.loads` from `src/redb/fields.py`, on the string path taken
by `DateField.cast`: the marker `'null'` loads as none; any other string
is parsed and a naive result is assigned the default timezone. -/
def dateLoads (s : String) : Except Err PyScalar :=
  if s = "null" then .ok .none
  else
    match parseDate s with
    | some d => .ok (.date (if d.aware then d else tzadd d))
    | Option.none => .error .castErr

/-- Embedding of `Field.cast` (the base class, as inherited by `IntField` and
`StringField`) together with the `DateField.cast` override, from
`src/redb/fields.py`:

* `None` maps to `None` in every variant;
* otherwise the base cast returns the value as-is when
  `type(value) is field_type`, and calls `field_type(value)` when not:
  `int()` on a numeric string converts and on anything else raises, and
  `str()` always converts;
* `DateField.cast` sends strings through `DateField.loads`, converts a
  non-datetime non-string via `datetime(value)` — which raises a
  `TypeError` for a single scalar argument — and assigns the default
  timezone to a naive datetime. -/
def fieldCast : FieldKind → PyScalar → Except Err PyScalar
  | .intF, .none => .ok .none
  | .intF, .int z => .ok (.int z)
  | .intF, .str s =>
    match pyIntOfStr s with
    | some z => .ok (.int z)
    | Option.none => .error .castErr
  | .intF, .date _ => .error .castErr
  | .strF, .none => .ok .none
  | .strF, .str s => .ok (.str s)
  | .strF, .int z => .ok (.str (pyStrOf (.int z)))
  | .strF, .date d => .ok (.str (pyStrOf (.date d)))
  | .dateF, .none => .ok .none
  | .dateF, .str s => dateLoads s
  | .dateF, .date d => .ok (.date (if d.aware then d else tzadd d))
  | .dateF, .int _ => .error .castErr

/-- A constructed field descriptor: `Field.__init__` stores the field
type and the `primary_key` option. -/
structure FieldDesc where
  field_type : FieldKind
  primary_key : Bool
deriving DecidableEq

/-- Embedding of `Field.__init__` from `src/redb/fields.py`: it pops the
`primary_key` keyword option (default false) and silently ignores every
remaining keyword option — the construction has no failure path, so the
`Except` result is always `ok`. -/
def fieldInit (ft : FieldKind) (kw : List (String × Bool)) : Except Err FieldDesc :=
  .ok { field_type := ft, primary_key := (kw.lookup "primary_key").getD false }

/-! ## Association-list operations (Python `dict` with unique keys) -/

/-- Dictionary lookup `d[k]`. -/
def lookupA {α β : Type} [DecidableEq α] : List (α × β) → α → Option β
  | [], _ => Option.none
  | kv :: r, k => if kv.1 = k then some kv.2 else lookupA r k

/-- Dictionary update `d[k] = v`: replace the binding if the key is present, append it
otherwise. -/
def setA {α β : Type} [DecidableEq α] : List (α × β) → α → β → List (α × β)
  | [], k, v => [(k, v)]
  | kv :: r, k, v => if kv.1 = k then (k, v) :: r else kv :: setA r k v

/-- Dictionary deletion `del d[k]`: drop the binding of `k`. -/
def eraseA {α β : Type} [DecidableEq α] : List (α × β) → α → List (α × β)
  | [], _ => []
  | kv :: r, k => if kv.1 = k then r else kv :: eraseA r k

/-! ## Model instances — `src/alkali/model.py` -/

/-- A model class's schema: the ordered field mapping `Meta.fields` and
the primary-key field names `Meta.pk_fields` (schema declaration is
treated as given, per the spec's scope). -/
structure Schema where
  sfields : List (String × FieldKind)
  pkFields : List String

/-- The schema lookup `Meta.fields[attr]` as an optional lookup. -/
def Schema.kindOf (S : Schema) (attr : String) : Option FieldKind :=
  lookupA S.sfields attr

/-- The per-instance state of a `Model`: the stored (already cast) schema
field values, any plain non-schema attributes, and the `_dirty` flag. -/
structure Model where
  fields : List (String × PyScalar)
  others : List (String × PyScalar)
  dirty : Bool
deriving DecidableEq

/-- Embedding of `Model.__setattr__` composed with `Model.__assign_field`:

* a non-schema attribute is stored as plain state, no cast, no dirty
  tracking;
* a schema attribute is cast through its field; when the attribute is
  already present (`hasattr`), a primary-key field whose current value is
  not none may not change to a different value (`RuntimeError`), and
  `_dirty` is assigned `curr_val != val`; when the attribute is absent
  ("we don't have this attr during object creation") the value is stored
  and `_dirty` is left untouched. -/
def Model.setattr (S : Schema) (i : Model) (attr : String) (v : PyScalar) :
    Except Err Model :=
  match S.kindOf attr with
  | Option.none => .ok { i with others := setA i.others attr v }
  | some k =>
    match fieldCast k v with
    | .error e => .error e
    | .ok w =>
      match lookupA i.fields attr with
      | some curr =>
        if attr ∈ S.pkFields ∧ curr ≠ PyScalar.none ∧ curr ≠ w then
          .error .pkErr
        else
          .ok { i with fields := setA i.fields attr w, dirty := decide (curr ≠ w) }
      | Option.none =>
        .ok { i with fields := setA i.fields attr w }

/-- The keyword-assignment loop of instance construction: each keyword
argument is assigned in turn through `__setattr__` (a cast failure or pk
error aborts construction). -/
def assignKwargs (S : Schema) : List (String × PyScalar) → Model → Except Err Model
  | [], i => .ok i
  | kv :: rest, i =>
    match Model.setattr S i kv.1 kv.2 with
    | .error e => .error e
    | .ok j => assignKwargs S rest j

/-- Instance construction.  `MetaModel.__call__` is absent from `src`;
modelled from the spec ("populated at construction from keyword arguments
and defaults (unset scalar fields default to none-value)") together with
the creation comment inside `Model.__assign_field` ("we don't have this
attr during object creation"): each keyword argument is assigned through
`__setattr__` while its attribute is still absent, and every schema field
not named by a keyword defaults to none. -/
def mkModel (S : Schema) (kwargs : List (String × PyScalar)) : Except Err Model :=
  match assignKwargs S kwargs (Model.mk [] [] false) with
  | .error e => .error e
  | .ok i =>
    .ok { i with fields := (i.fields ++ S.sfields.filterMap (fun f =>
      if (lookupA i.fields f.1).isSome then Option.none
      else some (f.1, PyScalar.none))) }

/-- Embedding of `Model.pk`: the value of the sole primary-key field, or the ordered
tuple of values when several primary-key fields are declared; a `none`
result is the `AttributeError` of reading a never-stored field.  The
source memoizes the first computed value; the embedding recomputes,
which agrees with the source wherever the claims read `pk`. -/
def Model.pkOf (S : Schema) (i : Model) : Option PK :=
  match S.pkFields with
  | [n] => (lookupA i.fields n).map PK.one
  | ns => (ns.mapM (fun n => lookupA i.fields n)).map PK.many

/-- The `self._dirty = False` step of `Model.save` (handing the instance
to the manager is `Manager.save` below). -/
def Model.markSaved (i : Model) : Model := { i with dirty := false }

/-- A value a model instance can be compared against: another model
instance (with its class name and schema) or a plain scalar, including
none. -/
inductive PyObj where
  | inst (cls : String) (S2 : Schema) (i2 : Model)
  | scalarV (v : PyScalar)

/-- Embedding of `Model.__eq__`: `type(self) == type(other) and self.pk == other.pk`;
the `type` test fails for every non-model value, and nothing raises. -/
def Model.eqPy (cls : String) (S : Schema) (i : Model) : PyObj → Bool
  | .inst cls2 S2 i2 => decide (cls = cls2) && decide (Model.pkOf S i = Model.pkOf S2 i2)
  | .scalarV _ => false

/-- Embedding of `Model.__ne__`: `not self.__eq__(other)`. -/
def Model.nePy (cls : String) (S : Schema) (i : Model) (o : PyObj) : Bool :=
  !(Model.eqPy cls S i o)

/-! ## The manager — `src/alkali/manager.py` -/

/-- Manager state: the pk-keyed instance dictionary `_instances` and the
manager-level `_dirty` flag. -/
structure Manager where
  insts : List (PK × Model)
  mdirty : Bool
deriving DecidableEq

/-- Embedding of `Manager.save`: asserts `instance.pk is not None`, stores the
instance under its pk (overwriting a previous holder of the same pk),
and sets the manager-level dirty flag unless the `dirty` argument is
false. -/
def Manager.save (S : Schema) (m : Manager) (inst : Model) (dirtyFlag : Bool) :
    Except Err Manager :=
  match Model.pkOf S inst with
  | Option.none => .error .attrErr
  | some p =>
    if p = PK.one PyScalar.none then .error .assertErr
    else .ok { insts := setA m.insts p inst, mdirty := m.mdirty || dirtyFlag }

/-- The aggregate `Manager.dirty` property: the manager-level flag, or
any owned instance dirty. -/
def Manager.dirtyAgg (m : Manager) : Bool :=
  m.mdirty || m.insts.any (fun kv => kv.2.dirty)

/-- Embedding of `Manager.clear`: empties the collection; `_dirty = len(self) > 0`. -/
def Manager.clear (m : Manager) : Manager :=
  { insts := [], mdirty := !m.insts.isEmpty }

/-- Embedding of `Manager.delete`: `del self._instances[instance.pk]` and mark dirty;
a `KeyError` (pk not held) is swallowed and nothing changes. -/
def Manager.delete (S : Schema) (m : Manager) (inst : Model) : Manager :=
  match Model.pkOf S inst with
  | Option.none => m
  | some p =>
    if (lookupA m.insts p).isSome then { insts := eraseA m.insts p, mdirty := true }
    else m

/-- Embedding of `Manager.sorter`: yields the stored instances in `sorted(keys)`
order. -/
def Manager.sorter (insts : List (PK × Model)) : List Model :=
  (sortKeys (insts.map Prod.fst)).filterMap (fun k => lookupA insts k)

/-- Embedding of `Manager.store`: sets `_dirty` when forced, writes the sorted
instances when the aggregate dirty property holds (the first component
is the sequence passed to `storage.write`; `none` means the write was
not invoked), and clears the manager-level flag afterwards either way. -/
def Manager.store (m : Manager) (force : Bool) : Option (List Model) × Manager :=
  if force || Manager.dirtyAgg m then
    (some (Manager.sorter m.insts), { insts := m.insts, mdirty := false })
  else (Option.none, { insts := m.insts, mdirty := false })

/-- A record produced by the Storage collaborator's read operation: an
already-constructed instance, or a raw field mapping to be constructed
against the model class. -/
inductive StorageRec where
  | inst (i : Model)
  | dict (d : List (String × PyScalar))

/-- The construction step of `Manager.load`: a dict record is
constructed against the model class, an instance record is taken as
produced. -/
def mkRec (S : Schema) : StorageRec → Except Err Model
  | StorageRec.dict d => mkModel S d
  | StorageRec.inst i => .ok i

/-- The record loop of `Manager.load`: for each record — constructed via
`mkRec` — raise `KeyError` when its pk is already held, otherwise insert
via `save(elem, dirty=False)`. -/
def loadFold (S : Schema) : List StorageRec → Manager → Except Err Manager
  | [], acc => .ok acc
  | r :: rest, acc =>
    match mkRec S r with
    | .error e => .error e
    | .ok elem =>
      match Model.pkOf S elem with
      | Option.none => .error .attrErr
      | some p =>
        if (lookupA acc.insts p).isSome then .error .keyErr
        else
          match Manager.save S acc elem false with
          | .error e => .error e
          | .ok acc2 => loadFold S rest acc2

/-- Embedding of `Manager.load`: clears the collection, runs the record loop, and on
success finishes with `_dirty = False`. -/
def Manager.load (S : Schema) (m : Manager) (recs : List StorageRec) :
    Except Err Manager :=
  match loadFold S recs (Manager.clear m) with
  | .error e => .error e
  | .ok m2 => .ok { insts := m2.insts, mdirty := false }

/-- Elementwise construction of every record (the instances `load`
builds), used to state what `load` holds afterwards. -/
def mkRecs (S : Schema) : List StorageRec → Except Err (List Model)
  | [] => .ok []
  | r :: rest =>
    match mkRec S r with
    | .error e => .error e
    | .ok i =>
      match mkRecs S rest with
      | .error e => .error e
      | .ok is => .ok (i :: is)

/-- The primary keys of a list of instances (`none` when reading some
`pk` would raise). -/
def pksOf (S : Schema) : List Model → Option (List PK)
  | [] => some []
  | i :: is =>
    match Model.pkOf S i with
    | Option.none => Option.none
    | some p =>
      match pksOf S is with
      | Option.none => Option.none
      | some ps => some (p :: ps)

/-- The well-formedness the manager maintains over its collection: the
Python dict has unique keys, and `save` stores each instance under its
own `pk`. -/
def Manager.WF (S : Schema) (m : Manager) : Prop :=
  (m.insts.map Prod.fst).Nodup ∧ ∀ kv ∈ m.insts, Model.pkOf S kv.2 = some kv.1

/-! ## Concrete fixtures used by counterexamples and witnesses -/

/-- A concrete model class: integer primary-key field `id`, integer
field `x` (the spec's example scenario shape). -/
def testSchema : Schema := ⟨[("id", FieldKind.intF), ("x", FieldKind.intF)], ["id"]⟩

/-- The instance `M(id=1)`: `id` stored as 1 by the creation-time
assignment, `x` defaulted to none, not dirty. -/
def testInst : Model := ⟨[("id", PyScalar.int 1), ("x", PyScalar.none)], [], false⟩

/-- State of `testInst` after `m.x = 5`: the post-creation change marks it dirty. -/
def testInstX : Model := ⟨[("id", PyScalar.int 1), ("x", PyScalar.int 5)], [], true⟩

/-- The instance `M(id=2)` (clean, as constructed). -/
def testInst2 : Model := ⟨[("id", PyScalar.int 2), ("x", PyScalar.none)], [], false⟩

/-- A manager holding `M(id=2)` and `M(id=1)` in that insertion order. -/
def testMgr : Manager :=
  ⟨[(PK.one (PyScalar.int 2), testInst2), (PK.one (PyScalar.int 1), testInst)], false⟩

/-- The manager state after loading the single record `{id: 1}` into an
empty manager. -/
def testMgrLoaded : Manager := ⟨[(PK.one (PyScalar.int 1), testInst)], false⟩

/-! # Theorems -/

/-! ## The `sorted()` comparison is total and transitive -/

theorem scalarLe_total (a b : PyScalar) : scalarLe a b = true ∨ scalarLe b a = true := by
  cases a <;> cases b
  case int.int x y =>
    simp only [scalarLe, decide_eq_true_eq]
    omega
  case date.date x y =>
    simp only [scalarLe, Bool.or_eq_true, Bool.and_eq_true, decide_eq_true_eq,
      Bool.not_eq_true']
    cases hx : x.aware <;> cases hy : y.aware <;> simp <;> omega
  case str.str x y =>
    simp only [scalarLe, decide_eq_true_eq]
    exact le_total x y
  all_goals first | (left; rfl) | (right; rfl)

theorem scalarLe_antisymm {a b : PyScalar} (h1 : scalarLe a b = true)
    (h2 : scalarLe b a = true) : a = b := by
  cases a <;> cases b <;>
    first
    | rfl
    | exact Bool.noConfusion h1
    | exact Bool.noConfusion h2
    | skip
  case int.int x y =>
    simp only [scalarLe, decide_eq_true_eq] at h1 h2
    simp only [PyScalar.int.injEq]
    omega
  case date.date x y =>
    simp only [scalarLe, Bool.or_eq_true, Bool.and_eq_true, decide_eq_true_eq,
      Bool.not_eq_true'] at h1 h2
    obtain ⟨xt, xa⟩ := x
    obtain ⟨yt, ya⟩ := y
    simp only [PyScalar.date.injEq, DT.mk.injEq]
    cases xa <;> cases ya <;> simp_all <;> omega
  case str.str x y =>
    simp only [scalarLe, decide_eq_true_eq] at h1 h2
    simp only [PyScalar.str.injEq]
    exact le_antisymm h1 h2

theorem scalarLe_trans {a b c : PyScalar} (h1 : scalarLe a b = true)
    (h2 : scalarLe b c = true) : scalarLe a c = true := by
  cases a <;> cases b <;> cases c <;>
    first
    | rfl
    | exact Bool.noConfusion h1
    | exact Bool.noConfusion h2
    | skip
  case int.int.int x y z =>
    simp only [scalarLe, decide_eq_true_eq] at h1 h2 ⊢
    omega
  case date.date.date x y z =>
    simp only [scalarLe, Bool.or_eq_true, Bool.and_eq_true, decide_eq_true_eq,
      Bool.not_eq_true'] at h1 h2 ⊢
    cases hx : x.aware <;> cases hy : y.aware <;> cases hz : z.aware <;>
      simp_all <;> omega
  case str.str.str x y z =>
    simp only [scalarLe, decide_eq_true_eq] at h1 h2 ⊢
    exact le_trans h1 h2

theorem listLe_total (a b : List PyScalar) : listLe a b = true ∨ listLe b a = true := by
  induction a generalizing b with
  | nil => left; rfl
  | cons x xs ih =>
    cases b with
    | nil => right; rfl
    | cons y ys =>
      by_cases hxy : x = y
      · subst hxy
        simpa [listLe] using ih ys
      · have hne : y ≠ x := fun h => hxy h.symm
        simpa [listLe, hxy, hne] using scalarLe_total x y

theorem listLe_trans {a b c : List PyScalar} (h1 : listLe a b = true)
    (h2 : listLe b c = true) : listLe a c = true := by
  induction a generalizing b c with
  | nil => rfl
  | cons x xs ih =>
    cases b with
    | nil => simp [listLe] at h1
    | cons y ys =>
      cases c with
      | nil => simp [listLe] at h2
      | cons z zs =>
        by_cases hxy : x = y <;> by_cases hyz : y = z
        · subst hxy; subst hyz
          simp only [listLe, if_pos rfl] at h1 h2 ⊢
          exact ih h1 h2
        · subst hxy
          simp only [listLe, if_pos rfl] at h1
          simpa [listLe, hyz] using h2
        · subst hyz
          simp only [listLe, if_pos rfl] at h2
          simpa [listLe, hxy] using h1
        · simp only [listLe, if_neg hxy] at h1
          simp only [listLe, if_neg hyz] at h2
          by_cases hxz : x = z
          · subst hxz
            exact absurd (scalarLe_antisymm h1 h2) hxy
          · simpa [listLe, hxz] using scalarLe_trans h1 h2

theorem pkLe_total (a b : PK) : pkLe a b = true ∨ pkLe b a = true := by
  cases a <;> cases b <;> simp [pkLe]
  case one.one => exact scalarLe_total _ _
  case many.many => exact listLe_total _ _

theorem pkLe_trans {a b c : PK} (h1 : pkLe a b = true) (h2 : pkLe b c = true) :
    pkLe a c = true := by
  cases a <;> cases b <;> cases c <;> simp_all [pkLe]
  case one.one.one => exact scalarLe_trans h1 h2
  case many.many.many => exact listLe_trans h1 h2

/-! ## `sortKeys` sorts -/

theorem insertKey_perm (k : PK) (l : List PK) : (insertKey k l).Perm (k :: l) := by
  induction l with
  | nil => exact List.Perm.refl _
  | cons x xs ih =>
    by_cases h : pkLe k x = true
    · simp [insertKey, h]
    · simp only [insertKey, if_neg h]
      exact ((ih.cons x).trans (List.Perm.swap k x xs))

theorem sortKeys_perm (l : List PK) : (sortKeys l).Perm l := by
  induction l with
  | nil => exact List.Perm.refl _
  | cons k ks ih => exact (insertKey_perm k (sortKeys ks)).trans (ih.cons k)

theorem insertKey_sorted {k : PK} {l : List PK}
    (h : l.Pairwise (fun a b => pkLe a b = true)) :
    (insertKey k l).Pairwise (fun a b => pkLe a b = true) := by
  induction l with
  | nil => simp [insertKey]
  | cons x xs ih =>
    rcases h with _ | ⟨hx, hxs⟩
    by_cases hle : pkLe k x = true
    · simp only [insertKey, if_pos hle]
      refine List.Pairwise.cons (fun b hb => ?_) (List.Pairwise.cons hx hxs)
      rcases List.mem_cons.mp hb with rfl | hb2
      · exact hle
      · exact pkLe_trans hle (hx _ hb2)
    · simp only [insertKey, if_neg hle]
      refine List.Pairwise.cons (fun b hb => ?_) (ih hxs)
      have hmem : b ∈ k :: xs := (insertKey_perm k xs).mem_iff.mp hb
      rcases List.mem_cons.mp hmem with rfl | hb2
      · rcases pkLe_total x b with h2 | h2
        · exact h2
        · exact absurd h2 hle
      · exact hx _ hb2

theorem sortKeys_sorted (l : List PK) :
    (sortKeys l).Pairwise (fun a b => pkLe a b = true) := by
  induction l with
  | nil => exact List.Pairwise.nil
  | cons k ks ih => exact insertKey_sorted ih

/-! ## Association-list lemmas -/

theorem lookupA_setA {α β : Type} [DecidableEq α] (l : List (α × β)) (k a : α) (v : β) :
    lookupA (setA l k v) a = if a = k then some v else lookupA l a := by
  induction l with
  | nil =>
    by_cases ha : a = k
    · simp [setA, lookupA, ha]
    · have h2 : ¬(k = a) := fun h => ha h.symm
      simp [setA, lookupA, ha, h2]
  | cons kv r ih =>
    by_cases hk : kv.1 = k
    · subst hk
      simp only [setA, if_pos rfl]
      by_cases ha : a = kv.1
      · subst ha
        simp [lookupA]
      · have h2 : ¬(kv.1 = a) := fun h => ha h.symm
        simp [lookupA, ha, h2]
    · simp only [setA, if_neg hk, lookupA]
      by_cases ha : kv.1 = a
      · have h2 : ¬(a = k) := fun h => hk (ha.trans h)
        simp [ha, h2]
      · simp [ha, ih]

theorem mem_setA {α β : Type} [DecidableEq α] {l : List (α × β)} {k : α} {v : β}
    {kv : α × β} (h : kv ∈ setA l k v) : kv ∈ l ∨ kv = (k, v) := by
  induction l with
  | nil => simpa [setA] using h
  | cons x r ih =>
    by_cases hx : x.1 = k
    · simp only [setA, if_pos hx] at h
      rcases List.mem_cons.mp h with rfl | h2
      · right; rfl
      · left; exact List.mem_cons_of_mem _ h2
    · simp only [setA, if_neg hx] at h
      rcases List.mem_cons.mp h with rfl | h2
      · left; exact List.mem_cons_self _ _
      · rcases ih h2 with h3 | h3
        · left; exact List.mem_cons_of_mem _ h3
        · right; exact h3

theorem lookupA_eq_none_iff {α β : Type} [DecidableEq α] (l : List (α × β)) (k : α) :
    lookupA l k = Option.none ↔ k ∉ l.map Prod.fst := by
  induction l with
  | nil => simp [lookupA]
  | cons kv r ih =>
    simp only [lookupA, List.map_cons, List.mem_cons]
    by_cases hk : kv.1 = k
    · simp [hk]
    · have h2 : ¬(k = kv.1) := fun h => hk h.symm
      simp [hk, h2, ih]

theorem setA_fresh {α β : Type} [DecidableEq α] {l : List (α × β)} {k : α} (v : β)
    (h : lookupA l k = Option.none) : setA l k v = l ++ [(k, v)] := by
  induction l with
  | nil => rfl
  | cons kv r ih =>
    simp only [lookupA] at h
    by_cases hk : kv.1 = k
    · rw [if_pos hk] at h
      exact absurd h (by simp)
    · rw [if_neg hk] at h
      simp [setA, hk, ih h]

theorem lookupA_mem {α β : Type} [DecidableEq α] {l : List (α × β)} {k : α} {v : β}
    (h : lookupA l k = some v) : (k, v) ∈ l := by
  induction l with
  | nil => simp [lookupA] at h
  | cons kv r ih =>
    simp only [lookupA] at h
    by_cases hk : kv.1 = k
    · rw [if_pos hk] at h
      obtain ⟨k1, v1⟩ := kv
      cases h
      cases hk
      exact List.mem_cons_self _ _
    · rw [if_neg hk] at h
      exact List.mem_cons_of_mem _ (ih h)

theorem lookupA_eraseA_self {α β : Type} [DecidableEq α] {l : List (α × β)} (k : α)
    (hnd : (l.map Prod.fst).Nodup) : lookupA (eraseA l k) k = Option.none := by
  induction l with
  | nil => rfl
  | cons kv r ih =>
    simp only [List.map_cons, List.nodup_cons] at hnd
    by_cases hk : kv.1 = k
    · simp only [eraseA, if_pos hk]
      rw [lookupA_eq_none_iff]
      rw [hk] at hnd
      exact hnd.1
    · simp only [eraseA, if_neg hk, lookupA, if_neg hk]
      exact ih hnd.2

/-! ## Claim theorems -/

/-- C7: the code evaluated at the claim's failing input
`IntField(some_keyword=True)` — `Field.__init__` in `src/redb/fields.py`
pops only `primary_key` and silently ignores the unrecognized option, so
construction succeeds with default flags instead of failing fast as the
spec (and the repository's own `test_14`) demand. -/
theorem fieldInit_ignores_unknown_option :
    fieldInit FieldKind.intF [("some_keyword", true)] =
      Except.ok ⟨FieldKind.intF, false⟩ := by
  rfl

/-- C9: `Model.__eq__` is true exactly for a model instance of the same
concrete model class with an equal `pk` (a shallow comparison, no other
field is read); comparison against any non-model value (none included)
is false without raising, and `Model.__ne__` is the boolean negation of
`Model.__eq__`. -/
theorem model_eq_shallow (cls cls2 : String) (S S2 : Schema) (i i2 : Model)
    (v : PyScalar) (o : PyObj) :
    (Model.eqPy cls S i (PyObj.inst cls2 S2 i2) = true ↔
      (cls = cls2 ∧ Model.pkOf S i = Model.pkOf S2 i2)) ∧
    Model.eqPy cls S i (PyObj.scalarV v) = false ∧
    Model.nePy cls S i o = !(Model.eqPy cls S i o) := by
  refine ⟨?_, rfl, rfl⟩
  simp [Model.eqPy]

/-- C8: `Manager.delete` removes the owned entry whose primary key
equals the instance's `pk` and then sets the manager-level dirty flag;
when no such entry is held it is a silent no-op (no error, collection
and dirty flag unchanged); with the unique keys of a Python dict,
deleting the same instance twice equals deleting it once. -/
theorem delete_spec (S : Schema) (m : Manager) (inst : Model) (p : PK)
    (hnd : (m.insts.map Prod.fst).Nodup)
    (hp : Model.pkOf S inst = some p) :
    (Manager.delete S m inst =
      if (lookupA m.insts p).isSome then Manager.mk (eraseA m.insts p) true
      else m) ∧
    Manager.delete S (Manager.delete S m inst) inst = Manager.delete S m inst := by
  have h1 : Manager.delete S m inst =
      if (lookupA m.insts p).isSome then Manager.mk (eraseA m.insts p) true
      else m := by
    simp [Manager.delete, hp]
  refine ⟨h1, ?_⟩
  by_cases hmem : (lookupA m.insts p).isSome
  · rw [h1, if_pos hmem]
    have hnone : lookupA (eraseA m.insts p) p = Option.none :=
      lookupA_eraseA_self p hnd
    simp [Manager.delete, hp, hnone, h1, hmem]
  · rw [h1, if_neg hmem, h1, if_neg hmem]

/-- C8 witness: deleting `M(id=1)` from the concrete manager removes the
entry with key 1 and marks the manager dirty. -/
theorem delete_spec_witness :
    Manager.delete testSchema testMgr testInst =
      Manager.mk [(PK.one (PyScalar.int 2), testInst2)] true := by
  have h := (delete_spec testSchema testMgr testInst (PK.one (PyScalar.int 1))
    (by decide) (by rfl)).1
  rw [h]
  rfl

/-- C6 is false as stated: `DateField.cast` applied to the string
`"null"` — a value not of the datetime type — returns none rather than
converting it to the field type or failing with a type error, because
strings are routed through `DateField.loads`, whose none-marker is the
literal `'null'`. -/
theorem dateField_cast_null_is_none :
    fieldCast FieldKind.dateF (PyScalar.str "null") = Except.ok PyScalar.none ∧
    (PyScalar.str "null" ≠ PyScalar.none) := by
  exact ⟨rfl, by decide⟩

/-- C6 (amended): `cast(none)` is none for every field; a value already
of the declared type is returned as-is (for the datetime field: when it
is timezone-aware); a value of a different type is converted — a numeric
string to its integer, any value to its string form — and conversion
failures (a non-numeric string for an integer field, a datetime for an
integer field, a non-datetime non-string for a datetime field) are type
errors; datetime casting always returns a timezone-aware value,
assigning the default timezone to naive input; the one exception to the
conversion rule is the datetime field's none-marker: the string
`'null'` casts to none. -/
theorem fieldCast_spec :
    (∀ k, fieldCast k PyScalar.none = Except.ok PyScalar.none) ∧
    (∀ z, fieldCast FieldKind.intF (PyScalar.int z) = Except.ok (PyScalar.int z)) ∧
    (∀ s, fieldCast FieldKind.strF (PyScalar.str s) = Except.ok (PyScalar.str s)) ∧
    (∀ d, d.aware = true →
      fieldCast FieldKind.dateF (PyScalar.date d) = Except.ok (PyScalar.date d)) ∧
    (∀ s z, pyIntOfStr s = some z →
      fieldCast FieldKind.intF (PyScalar.str s) = Except.ok (PyScalar.int z)) ∧
    (∀ s, pyIntOfStr s = Option.none →
      fieldCast FieldKind.intF (PyScalar.str s) = Except.error Err.castErr) ∧
    (∀ z, fieldCast FieldKind.strF (PyScalar.int z) =
      Except.ok (PyScalar.str (pyStrOf (PyScalar.int z)))) ∧
    (∀ d, fieldCast FieldKind.strF (PyScalar.date d) =
      Except.ok (PyScalar.str (pyStrOf (PyScalar.date d)))) ∧
    (∀ d, fieldCast FieldKind.intF (PyScalar.date d) = Except.error Err.castErr) ∧
    (∀ z, fieldCast FieldKind.dateF (PyScalar.int z) = Except.error Err.castErr) ∧
    (∀ d, d.aware = false →
      fieldCast FieldKind.dateF (PyScalar.date d) =
        Except.ok (PyScalar.date (tzadd d))) ∧
    (fieldCast FieldKind.dateF (PyScalar.str "null") = Except.ok PyScalar.none) ∧
    (∀ v w, fieldCast FieldKind.dateF v = Except.ok w →
      w = PyScalar.none ∨ ∃ d, w = PyScalar.date d ∧ d.aware = true) := by
  refine ⟨fun k => ?_, fun z => rfl, fun s => rfl, ?_, ?_, ?_, fun z => rfl,
    fun d => rfl, fun d => rfl, fun z => rfl, ?_, rfl, ?_⟩
  · cases k <;> rfl
  · intro d hd
    have he : fieldCast FieldKind.dateF (PyScalar.date d) =
        Except.ok (PyScalar.date (if d.aware then d else tzadd d)) := rfl
    rw [he, hd]
    simp
  · intro s z hps
    have he : fieldCast FieldKind.intF (PyScalar.str s) =
        (match pyIntOfStr s with
         | some z2 => Except.ok (PyScalar.int z2)
         | Option.none => Except.error Err.castErr) := rfl
    rw [he, hps]
  · intro s hps
    have he : fieldCast FieldKind.intF (PyScalar.str s) =
        (match pyIntOfStr s with
         | some z2 => Except.ok (PyScalar.int z2)
         | Option.none => Except.error Err.castErr) := rfl
    rw [he, hps]
  · intro d hd
    have he : fieldCast FieldKind.dateF (PyScalar.date d) =
        Except.ok (PyScalar.date (if d.aware then d else tzadd d)) := rfl
    rw [he, hd]
    simp
  · intro v w h
    cases v with
    | none => cases h; exact Or.inl rfl
    | int z => cases h
    | date d =>
      cases h
      refine Or.inr ⟨_, rfl, ?_⟩
      cases hd : d.aware <;> simp [hd, tzadd]
    | str s =>
      have he : fieldCast FieldKind.dateF (PyScalar.str s) =
          (if s = "null" then Except.ok PyScalar.none
           else match parseDate s with
             | some d => Except.ok (PyScalar.date (if d.aware then d else tzadd d))
             | Option.none => Except.error Err.castErr) := rfl
      rw [he] at h
      by_cases hnull : s = "null"
      · rw [if_pos hnull] at h
        cases h
        exact Or.inl rfl
      · rw [if_neg hnull] at h
        rcases hp : parseDate s with _ | d <;> rw [hp] at h
        · cases h
        · cases h
          refine Or.inr ⟨_, rfl, ?_⟩
          cases hd : d.aware <;> simp [hd, tzadd]

/-- C6 witness: the numeric string "12" converts on an integer field,
and a naive datetime is assigned the default timezone. -/
theorem fieldCast_spec_witness :
    fieldCast FieldKind.intF (PyScalar.str "12") = Except.ok (PyScalar.int 12) ∧
    fieldCast FieldKind.dateF (PyScalar.date ⟨3, false⟩) =
      Except.ok (PyScalar.date (tzadd ⟨3, false⟩)) := by
  constructor
  · exact fieldCast_spec.2.2.2.2.1 "12" 12 (by decide)
  · exact fieldCast_spec.2.2.2.2.2.2.2.2.2.2.1 ⟨3, false⟩ rfl

theorem fieldCast_aware_fix (d : DT) (hd : d.aware = true) :
    fieldCast FieldKind.dateF (PyScalar.date d) = Except.ok (PyScalar.date d) := by
  have he : fieldCast FieldKind.dateF (PyScalar.date d) =
      Except.ok (PyScalar.date (if d.aware then d else tzadd d)) := rfl
  rw [he, hd]
  simp

/-- C10: `cast` is idempotent: whenever `cast` succeeds, applying it to
its own result returns that result unchanged — a value already of the
declared type passes through the base `Field.cast` as-is, and an
already-aware datetime passes through `DateField.cast` unchanged. -/
theorem fieldCast_idempotent (k : FieldKind) (v w : PyScalar)
    (h : fieldCast k v = Except.ok w) : fieldCast k w = Except.ok w := by
  cases k with
  | intF =>
    cases v with
    | none => cases h; rfl
    | int z => cases h; rfl
    | str s =>
      have he : fieldCast FieldKind.intF (PyScalar.str s) =
          (match pyIntOfStr s with
           | some z => Except.ok (PyScalar.int z)
           | Option.none => Except.error Err.castErr) := rfl
      rw [he] at h
      rcases hps : pyIntOfStr s with _ | z <;> rw [hps] at h
      · cases h
      · cases h; rfl
    | date d => cases h
  | strF =>
    cases v with
    | none => cases h; rfl
    | str s => cases h; rfl
    | int z => cases h; rfl
    | date d => cases h; rfl
  | dateF =>
    cases v with
    | none => cases h; rfl
    | int z => cases h
    | date d =>
      cases h
      apply fieldCast_aware_fix
      cases hd : d.aware <;> simp [hd, tzadd]
    | str s =>
      have he : fieldCast FieldKind.dateF (PyScalar.str s) = dateLoads s := rfl
      have he2 : dateLoads s =
          (if s = "null" then Except.ok PyScalar.none
           else match parseDate s with
             | some d => Except.ok (PyScalar.date (if d.aware then d else tzadd d))
             | Option.none => Except.error Err.castErr) := rfl
      rw [he, he2] at h
      by_cases hnull : s = "null"
      · rw [if_pos hnull] at h
        cases h; rfl
      · rw [if_neg hnull] at h
        rcases hp : parseDate s with _ | d <;> rw [hp] at h
        · cases h
        · cases h
          apply fieldCast_aware_fix
          cases hd : d.aware <;> simp [hd, tzadd]

/-- C10 witness: casting a naive datetime succeeds (attaching the default
timezone), and casting the result returns it unchanged. -/
theorem fieldCast_idempotent_witness :
    fieldCast FieldKind.dateF (PyScalar.date ⟨5, true⟩) =
      Except.ok (PyScalar.date ⟨5, true⟩) :=
  fieldCast_idempotent FieldKind.dateF (PyScalar.date ⟨5, false⟩)
    (PyScalar.date ⟨5, true⟩) (by rfl)

/-- C3 is false as stated: `testInst` holds primary key `id = 1`, and
assigning `id` the none value — which is not a "different non-none
value" — also raises the primary-key `RuntimeError`
(`curr_val is not None and curr_val != val` holds for `val = None`). -/
theorem pk_assign_none_raises :
    Model.setattr testSchema testInst "id" PyScalar.none = Except.error Err.pkErr := by
  rfl

/-- C3 (amended): for an instance whose primary-key field already holds
a non-none value, assigning a value that casts to the current value
never raises (and resets the dirty flag for that no-change write), while
the primary-key `RuntimeError` is raised exactly when the newly cast
value differs from the current one — a different non-none value or the
none value alike. -/
theorem pk_immutability (S : Schema) (i : Model) (attr : String) (k : FieldKind)
    (curr v w : PyScalar)
    (hk : S.kindOf attr = some k)
    (hpk : attr ∈ S.pkFields)
    (hcur : lookupA i.fields attr = some curr)
    (hnn : curr ≠ PyScalar.none)
    (hcast : fieldCast k v = Except.ok w) :
    (Model.setattr S i attr v = Except.error Err.pkErr ↔ w ≠ curr) ∧
    (w = curr → Model.setattr S i attr v =
      Except.ok { i with fields := setA i.fields attr w, dirty := false }) := by
  have hs : Model.setattr S i attr v =
      if attr ∈ S.pkFields ∧ curr ≠ PyScalar.none ∧ curr ≠ w then
        Except.error Err.pkErr
      else
        Except.ok (Model.mk (setA i.fields attr w) i.others (decide (curr ≠ w))) := by
    simp only [Model.setattr, hk, hcast, hcur]
  by_cases hwc : w = curr
  · have hcond : ¬(attr ∈ S.pkFields ∧ curr ≠ PyScalar.none ∧ curr ≠ w) := by
      simp [hwc]
    rw [hs, if_neg hcond]
    constructor
    · exact iff_of_false (by simp) (by simp [hwc])
    · intro _
      simp [hwc]
  · have hcond : attr ∈ S.pkFields ∧ curr ≠ PyScalar.none ∧ curr ≠ w :=
      ⟨hpk, hnn, fun h2 => hwc h2.symm⟩
    rw [hs, if_pos hcond]
    exact ⟨iff_of_true rfl hwc, fun h2 => absurd h2 hwc⟩

theorem setattr_creation (S : Schema) (acc j : Model) (attr : String) (v : PyScalar)
    (habs : lookupA acc.fields attr = Option.none)
    (h : Model.setattr S acc attr v = Except.ok j) :
    j.dirty = acc.dirty ∧ (j.fields = acc.fields ∨ ∃ w, j.fields = setA acc.fields attr w) := by
  rcases hk : S.kindOf attr with _ | k
  · simp only [Model.setattr, hk, Except.ok.injEq] at h
    subst h
    exact ⟨rfl, Or.inl rfl⟩
  · rcases hc : fieldCast k v with e | w
    · simp only [Model.setattr, hk, hc] at h
      exact Except.noConfusion h
    · simp only [Model.setattr, hk, hc, habs, Except.ok.injEq] at h
      subst h
      exact ⟨rfl, Or.inr ⟨w, rfl⟩⟩

theorem assignKwargs_not_dirty (S : Schema) :
    ∀ (kwargs : List (String × PyScalar)) (acc i : Model),
    (kwargs.map Prod.fst).Nodup →
    (∀ kv ∈ kwargs, lookupA acc.fields kv.1 = Option.none) →
    assignKwargs S kwargs acc = Except.ok i →
    i.dirty = acc.dirty := by
  intro kwargs
  induction kwargs with
  | nil =>
    intro acc i _ _ h
    cases h
    rfl
  | cons kv rest ih =>
    intro acc i hnd habs h
    simp only [assignKwargs] at h
    rcases hstep : Model.setattr S acc kv.1 kv.2 with e | j
    · rw [hstep] at h; cases h
    · rw [hstep] at h
      have hkv := habs kv (List.mem_cons_self _ _)
      obtain ⟨hdj, hfj⟩ := setattr_creation S acc j kv.1 kv.2 hkv hstep
      simp only [List.map_cons, List.nodup_cons] at hnd
      have habs2 : ∀ kv2 ∈ rest, lookupA j.fields kv2.1 = Option.none := by
        intro kv2 hm
        have hne : kv2.1 ≠ kv.1 := by
          intro he
          exact hnd.1 (he ▸ List.mem_map_of_mem Prod.fst hm)
        rcases hfj with hf | ⟨w, hf⟩
        · rw [hf]
          exact habs kv2 (List.mem_cons_of_mem _ hm)
        · rw [hf, lookupA_setA, if_neg hne]
          exact habs kv2 (List.mem_cons_of_mem _ hm)
      exact (ih j i hnd.2 habs2 h).trans hdj

theorem mkModel_not_dirty (S : Schema) (kwargs : List (String × PyScalar)) (i : Model)
    (hnd : (kwargs.map Prod.fst).Nodup)
    (h : mkModel S kwargs = Except.ok i) : i.dirty = false := by
  rcases ha : assignKwargs S kwargs (Model.mk [] [] false) with e | j
  · simp only [mkModel, ha] at h
    exact Except.noConfusion h
  · simp only [mkModel, ha, Except.ok.injEq] at h
    subst h
    exact assignKwargs_not_dirty S kwargs (Model.mk [] [] false) j hnd
      (fun kv _ => rfl) ha

/-- C2 is false as stated: construct `M(id=1)` (not dirty), assign
`x := 5` (a change — dirty becomes true), then assign `x := 5` again —
an assignment that leaves the field unchanged and happens with no save
in between — and the dirty flag is erased back to false, because
`Model.__assign_field` overwrites `_dirty` with `curr_val != val`
instead of or-ing it. -/
theorem dirty_erased_by_unchanged_assignment :
    mkModel testSchema [("id", PyScalar.int 1)] = Except.ok testInst ∧
    Model.setattr testSchema testInst "x" (PyScalar.int 5) = Except.ok testInstX ∧
    testInstX.dirty = true ∧
    Model.setattr testSchema testInstX "x" (PyScalar.int 5) =
      Except.ok (Model.mk testInstX.fields [] false) := by
  refine ⟨rfl, rfl, rfl, rfl⟩

/-- C2 (amended): the instance dirty flag records the outcome of the
most recent assignment only: a post-creation assignment to a schema
field (one that finds the attribute present and does not trip the pk
guard) overwrites `_dirty` with "the newly cast value differs from the
stored one", erasing any earlier dirtiness on a no-change write;
creation-time assignments leave the flag untouched, so a freshly
constructed instance (unique keyword names, as a Python call supplies)
is never dirty whatever values it was given; marking the instance saved
resets the flag to false. -/
theorem dirty_semantics :
    (∀ (S : Schema) (i : Model) (attr : String) (k : FieldKind) (curr v w : PyScalar),
      S.kindOf attr = some k → fieldCast k v = Except.ok w →
      lookupA i.fields attr = some curr →
      ¬(attr ∈ S.pkFields ∧ curr ≠ PyScalar.none ∧ curr ≠ w) →
      Model.setattr S i attr v =
        Except.ok (Model.mk (setA i.fields attr w) i.others (decide (curr ≠ w)))) ∧
    (∀ (S : Schema) (kwargs : List (String × PyScalar)) (i : Model),
      (kwargs.map Prod.fst).Nodup → mkModel S kwargs = Except.ok i →
      i.dirty = false) ∧
    (∀ i : Model, (Model.markSaved i).dirty = false) := by
  refine ⟨?_, ?_, fun i => rfl⟩
  · intro S i attr k curr v w hk hcast hcur hnr
    simp only [Model.setattr, hk, hcast, hcur]
    rw [if_neg hnr]
  · intro S kwargs i hnd h
    exact mkModel_not_dirty S kwargs i hnd h

/-- C2 witness: on the concrete instance, a real change `x := 7` sets
the dirty flag (the last-write rule applied where the claim and the code
agree). -/
theorem dirty_semantics_witness :
    Model.setattr testSchema testInst "x" (PyScalar.int 7) =
      Except.ok (Model.mk (setA testInst.fields "x" (PyScalar.int 7)) [] true) := by
  have h := dirty_semantics.1 testSchema testInst "x" FieldKind.intF
    PyScalar.none (PyScalar.int 7) (PyScalar.int 7)
    (by rfl) (by rfl) (by rfl) (by decide)
  simpa using h

/-- C3 witness: on `testInst` (pk `id = 1`), assigning `id := 2` raises
the pk error, and assigning `id := 1` (its current value) succeeds. -/
theorem pk_immutability_witness :
    Model.setattr testSchema testInst "id" (PyScalar.int 2) =
        Except.error Err.pkErr ∧
    Model.setattr testSchema testInst "id" (PyScalar.int 1) =
        Except.ok (Model.mk (setA testInst.fields "id" (PyScalar.int 1)) [] false) := by
  constructor
  · exact (pk_immutability testSchema testInst "id" FieldKind.intF
      (PyScalar.int 1) (PyScalar.int 2) (PyScalar.int 2)
      (by rfl) (by decide) (by rfl) (by decide) (by rfl)).1.mpr (by decide)
  · exact (pk_immutability testSchema testInst "id" FieldKind.intF
      (PyScalar.int 1) (PyScalar.int 1) (PyScalar.int 1)
      (by rfl) (by decide) (by rfl) (by decide) (by rfl)).2 rfl

/-! ## `Manager.load` -/

theorem save_fresh (S : Schema) (acc : Manager) (elem : Model) (p : PK)
    (hp : Model.pkOf S elem = some p) (hnn : p ≠ PK.one PyScalar.none) :
    Manager.save S acc elem false =
      Except.ok (Manager.mk (setA acc.insts p elem) acc.mdirty) := by
  simp [Manager.save, hp, hnn]

theorem loadFold_spec (S : Schema) :
    ∀ (recs : List StorageRec) (acc : Manager) (is : List Model) (ps : List PK),
    mkRecs S recs = Except.ok is →
    pksOf S is = some ps →
    (∀ p ∈ ps, p ≠ PK.one PyScalar.none) →
    loadFold S recs acc =
      if (∀ p ∈ ps, lookupA acc.insts p = Option.none) ∧ ps.Nodup then
        Except.ok (Manager.mk (acc.insts ++ ps.zip is) acc.mdirty)
      else Except.error Err.keyErr := by
  intro recs
  induction recs with
  | nil =>
    intro acc is ps hc hp hnn
    cases hc
    cases hp
    rw [if_pos ⟨fun p hp2 => absurd hp2 (List.not_mem_nil p), List.nodup_nil⟩]
    simp [loadFold]
  | cons r rest ih =>
    intro acc is ps hc hp hnn
    rcases h1 : mkRec S r with e | i
    · simp only [mkRecs, h1] at hc
      exact Except.noConfusion hc
    · simp only [mkRecs, h1] at hc
      rcases h2 : mkRecs S rest with e2 | is2
      · rw [h2] at hc
        exact Except.noConfusion hc
      · rw [h2] at hc
        cases hc
        simp only [pksOf] at hp
        rcases hpk1 : Model.pkOf S i with _ | p
        · rw [hpk1] at hp
          exact Option.noConfusion hp
        · rw [hpk1] at hp
          rcases hpk2 : pksOf S is2 with _ | ps2
          · rw [hpk2] at hp
            exact Option.noConfusion hp
          · rw [hpk2] at hp
            cases hp
            have hnnp : p ≠ PK.one PyScalar.none := hnn p (List.mem_cons_self _ _)
            have hnn2 : ∀ q ∈ ps2, q ≠ PK.one PyScalar.none :=
              fun q hq => hnn q (List.mem_cons_of_mem _ hq)
            rcases hl : lookupA acc.insts p with _ | v
            · -- fresh key: the record is inserted and the loop continues
              simp only [loadFold, h1, hpk1, hl, Option.isSome_none,
                Bool.false_eq_true, if_false, save_fresh S acc i p hpk1 hnnp]
              rw [ih (Manager.mk (setA acc.insts p i) acc.mdirty) is2 ps2 h2 hpk2 hnn2]
              have hiff : ((∀ q ∈ ps2,
                    lookupA (Manager.mk (setA acc.insts p i) acc.mdirty).insts q =
                      Option.none) ∧ ps2.Nodup) ↔
                  ((∀ q ∈ p :: ps2, lookupA acc.insts q = Option.none) ∧
                    (p :: ps2).Nodup) := by
                constructor
                · rintro ⟨h3, h4⟩
                  have hq : ∀ q ∈ ps2, q ≠ p ∧ lookupA acc.insts q = Option.none := by
                    intro q hq2
                    have h5 := h3 q hq2
                    rw [show (Manager.mk (setA acc.insts p i) acc.mdirty).insts =
                      setA acc.insts p i from rfl, lookupA_setA] at h5
                    by_cases hqp : q = p
                    · rw [if_pos hqp] at h5
                      exact absurd h5 (by simp)
                    · rw [if_neg hqp] at h5
                      exact ⟨hqp, h5⟩
                  refine ⟨?_, ?_⟩
                  · intro q hq2
                    rcases List.mem_cons.mp hq2 with rfl | hq3
                    · exact hl
                    · exact (hq q hq3).2
                  · rw [List.nodup_cons]
                    exact ⟨fun hmem => (hq p hmem).1 rfl, h4⟩
                · rintro ⟨h3, h4⟩
                  rw [List.nodup_cons] at h4
                  refine ⟨?_, h4.2⟩
                  intro q hq2
                  rw [show (Manager.mk (setA acc.insts p i) acc.mdirty).insts =
                    setA acc.insts p i from rfl, lookupA_setA]
                  have hqp : ¬(q = p) := fun he => h4.1 (he ▸ hq2)
                  rw [if_neg hqp]
                  exact h3 q (List.mem_cons_of_mem _ hq2)
              by_cases hA : (∀ q ∈ p :: ps2, lookupA acc.insts q = Option.none) ∧
                  (p :: ps2).Nodup
              · rw [if_pos (hiff.mpr hA), if_pos hA]
                rw [show (Manager.mk (setA acc.insts p i) acc.mdirty).insts =
                  setA acc.insts p i from rfl, setA_fresh i hl]
                simp [List.append_assoc]
              · rw [if_neg (fun h5 => hA (hiff.mp h5)), if_neg hA]
            · -- pk collision: KeyError
              have hA : ¬((∀ q ∈ p :: ps2, lookupA acc.insts q = Option.none) ∧
                  (p :: ps2).Nodup) := by
                rintro ⟨h3, _⟩
                have h4 := h3 p (List.mem_cons_self _ _)
                rw [hl] at h4
                exact Option.noConfusion h4
              simp only [loadFold, h1, hpk1, hl, Option.isSome_some, if_true]
              rw [if_neg hA]

/-- C4: `Manager.load` clears the collection (the result is independent
of the previous contents), constructs a model instance for each raw
field mapping, and inserts each record via `save` with the dirty flag
suppressed; the first record whose primary key duplicates one already
loaded in the same call raises `KeyError` instead of silently
overwriting; on success the held collection is exactly the loaded
records keyed by their pks and the manager-level dirty flag is false. -/
theorem load_characterization (S : Schema) (m : Manager) (recs : List StorageRec)
    (is : List Model) (ps : List PK)
    (hc : mkRecs S recs = Except.ok is)
    (hp : pksOf S is = some ps)
    (hnn : ∀ p ∈ ps, p ≠ PK.one PyScalar.none) :
    Manager.load S m recs =
      if ps.Nodup then Except.ok (Manager.mk (ps.zip is) false)
      else Except.error Err.keyErr := by
  have h := loadFold_spec S recs (Manager.clear m) is ps hc hp hnn
  unfold Manager.load
  rw [h]
  by_cases hd : ps.Nodup
  · rw [if_pos ⟨fun p _ => rfl, hd⟩, if_pos hd]
    simp [Manager.clear]
  · rw [if_neg (fun hA => hd hA.2), if_neg hd]

/-- C4 witness: loading `{id: 2}` then `{id: 1}` succeeds with a clean
manager holding both; loading `{id: 1}` twice raises `KeyError`. -/
theorem load_characterization_witness :
    Manager.load testSchema (Manager.mk [] false)
        [StorageRec.dict [("id", PyScalar.int 2)],
         StorageRec.dict [("id", PyScalar.int 1)]] =
      Except.ok (Manager.mk [(PK.one (PyScalar.int 2), testInst2),
        (PK.one (PyScalar.int 1), testInst)] false) ∧
    Manager.load testSchema (Manager.mk [] false)
        [StorageRec.dict [("id", PyScalar.int 1)],
         StorageRec.dict [("id", PyScalar.int 1)]] =
      Except.error Err.keyErr := by
  constructor
  · have h := load_characterization testSchema (Manager.mk [] false)
      [StorageRec.dict [("id", PyScalar.int 2)],
       StorageRec.dict [("id", PyScalar.int 1)]]
      [testInst2, testInst]
      [PK.one (PyScalar.int 2), PK.one (PyScalar.int 1)]
      (by rfl) (by rfl) (by decide)
    rw [h, if_pos (by decide)]
    rfl
  · have h := load_characterization testSchema (Manager.mk [] false)
      [StorageRec.dict [("id", PyScalar.int 1)],
       StorageRec.dict [("id", PyScalar.int 1)]]
      [testInst, testInst]
      [PK.one (PyScalar.int 1), PK.one (PyScalar.int 1)]
      (by rfl) (by rfl) (by decide)
    rw [h, if_neg (by decide)]

theorem loadFold_clean (S : Schema) :
    ∀ (recs : List StorageRec) (acc m2 : Manager),
    (∀ i, StorageRec.inst i ∈ recs → i.dirty = false) →
    (∀ d, StorageRec.dict d ∈ recs → (d.map Prod.fst).Nodup) →
    (∀ kv ∈ acc.insts, kv.2.dirty = false) →
    loadFold S recs acc = Except.ok m2 →
    ∀ kv ∈ m2.insts, kv.2.dirty = false := by
  intro recs
  induction recs with
  | nil =>
    intro acc m2 _ _ hacc h
    cases h
    exact hacc
  | cons r rest ih =>
    intro acc m2 hci hcd hacc h
    rcases h1 : mkRec S r with e | elem
    · simp only [loadFold, h1] at h
      exact Except.noConfusion h
    · have helem : elem.dirty = false := by
        cases r with
        | inst i =>
          have h2 : mkRec S (StorageRec.inst i) = Except.ok i := rfl
          rw [h2] at h1
          cases h1
          exact hci elem (List.mem_cons_self _ _)
        | dict d =>
          exact mkModel_not_dirty S d elem (hcd d (List.mem_cons_self _ _)) h1
      simp only [loadFold, h1] at h
      rcases hpk : Model.pkOf S elem with _ | p
      · rw [hpk] at h
        exact Except.noConfusion h
      · simp only [hpk] at h
        rcases hl : lookupA acc.insts p with _ | v
        · rw [hl] at h
          simp only [Option.isSome_none, Bool.false_eq_true, if_false] at h
          by_cases hnn : p = PK.one PyScalar.none
          · have hsave : Manager.save S acc elem false = Except.error Err.assertErr := by
              simp [Manager.save, hpk, hnn]
            rw [hsave] at h
            exact Except.noConfusion h
          · rw [save_fresh S acc elem p hpk hnn] at h
            refine ih (Manager.mk (setA acc.insts p elem) acc.mdirty) m2
              (fun i2 hm => hci i2 (List.mem_cons_of_mem _ hm))
              (fun d hm => hcd d (List.mem_cons_of_mem _ hm)) ?_ h
            intro kv hkv
            rcases mem_setA hkv with h3 | h3
            · exact hacc kv h3
            · rw [h3]
              exact helem
        · rw [hl] at h
          simp only [Option.isSome_some, if_true] at h
          exact Except.noConfusion h

/-- C1: after a successful `manager.load(storage)` — the instance
records being unmutated (hence clean) and the dict records genuine
Python mappings (unique keys) — the aggregate dirty state is false, so
an immediately following `manager.store(storage)` with `force` left
false does not invoke the Storage collaborator's write operation. -/
theorem load_then_store_no_write (S : Schema) (m m2 : Manager)
    (recs : List StorageRec)
    (hclean : ∀ i, StorageRec.inst i ∈ recs → i.dirty = false)
    (hnd : ∀ d, StorageRec.dict d ∈ recs → (d.map Prod.fst).Nodup)
    (h : Manager.load S m recs = Except.ok m2) :
    Manager.dirtyAgg m2 = false ∧ (Manager.store m2 false).1 = Option.none := by
  rcases hf : loadFold S recs (Manager.clear m) with e | mf
  · unfold Manager.load at h
    rw [hf] at h
    exact Except.noConfusion h
  · unfold Manager.load at h
    rw [hf] at h
    cases h
    have hcleanf := loadFold_clean S recs (Manager.clear m) mf hclean hnd
      (fun kv hkv => absurd hkv (List.not_mem_nil kv)) hf
    have hagg : Manager.dirtyAgg (Manager.mk mf.insts false) = false := by
      simp only [Manager.dirtyAgg, Bool.false_or]
      rw [List.any_eq_false]
      intro kv hkv
      simp [hcleanf kv hkv]
    refine ⟨hagg, ?_⟩
    unfold Manager.store
    rw [if_neg (by simp [hagg])]

/-- C1 witness: loading the single record `{id: 1}` into an empty
manager yields `testMgrLoaded`, which is not dirty and whose immediate
unforced store performs no write. -/
theorem load_then_store_no_write_witness :
    Manager.dirtyAgg testMgrLoaded = false ∧
    (Manager.store testMgrLoaded false).1 = Option.none := by
  refine load_then_store_no_write testSchema (Manager.mk [] false) testMgrLoaded
    [StorageRec.dict [("id", PyScalar.int 1)]] ?_ ?_ (by rfl)
  · intro i hm
    simp at hm
  · intro d hm
    simp at hm
    rw [hm]
    decide

/-! ## `Manager.store` -/

theorem filterMap_eq_of_eq_on {α β : Type} (f g : α → Option β) :
    ∀ (l : List α), (∀ a ∈ l, f a = g a) → l.filterMap f = l.filterMap g := by
  intro l
  induction l with
  | nil => intro _; rfl
  | cons a r ih =>
    intro h
    rw [List.filterMap_cons, List.filterMap_cons, h a (List.mem_cons_self _ _),
      ih (fun b hb => h b (List.mem_cons_of_mem _ hb))]

theorem filterMap_lookupA_self {α β : Type} [DecidableEq α] :
    ∀ (insts : List (α × β)), (insts.map Prod.fst).Nodup →
    (insts.map Prod.fst).filterMap (lookupA insts) = insts.map Prod.snd := by
  intro insts
  induction insts with
  | nil => intro _; rfl
  | cons kv rest ih =>
    intro hnd
    simp only [List.map_cons, List.nodup_cons] at hnd ⊢
    rw [List.filterMap_cons]
    have h1 : lookupA (kv :: rest) kv.1 = some kv.2 := by
      simp [lookupA]
    rw [h1]
    have h2 : (rest.map Prod.fst).filterMap (lookupA (kv :: rest)) =
        (rest.map Prod.fst).filterMap (lookupA rest) := by
      apply filterMap_eq_of_eq_on
      intro a ha
      have hne : ¬(kv.1 = a) := fun he => hnd.1 (he ▸ ha)
      simp [lookupA, hne]
    rw [h2, ih hnd.2]

theorem filterMap_lookupA_pks (S : Schema) (insts : List (PK × Model))
    (hwf : ∀ kv ∈ insts, Model.pkOf S kv.2 = some kv.1) :
    ∀ (ks : List PK), (∀ k ∈ ks, ∃ v, lookupA insts k = some v) →
    (ks.filterMap (lookupA insts)).map (fun i => Model.pkOf S i) = ks.map some := by
  intro ks
  induction ks with
  | nil => intro _; rfl
  | cons k r ih =>
    intro h
    obtain ⟨v, hv⟩ := h k (List.mem_cons_self _ _)
    rw [List.filterMap_cons, hv]
    simp only [List.map_cons]
    rw [ih (fun q hq => h q (List.mem_cons_of_mem _ hq))]
    have h2 := hwf (k, v) (lookupA_mem hv)
    simp [h2]

theorem sorter_perm (insts : List (PK × Model))
    (hnd : (insts.map Prod.fst).Nodup) :
    (Manager.sorter insts).Perm (insts.map Prod.snd) := by
  unfold Manager.sorter
  have h1 : List.Perm ((sortKeys (insts.map Prod.fst)).filterMap (lookupA insts))
      ((insts.map Prod.fst).filterMap (lookupA insts)) :=
    (sortKeys_perm _).filterMap _
  rw [filterMap_lookupA_self insts hnd] at h1
  exact h1

theorem sorter_pks_sorted (S : Schema) (insts : List (PK × Model))
    (hnd : (insts.map Prod.fst).Nodup)
    (hwf : ∀ kv ∈ insts, Model.pkOf S kv.2 = some kv.1) :
    ∃ ks : List PK,
      (Manager.sorter insts).map (fun i => Model.pkOf S i) = ks.map some ∧
      ks.Pairwise (fun a b => pkLe a b = true) := by
  refine ⟨sortKeys (insts.map Prod.fst), ?_, sortKeys_sorted _⟩
  unfold Manager.sorter
  apply filterMap_lookupA_pks S insts hwf
  intro k hk
  have hkm : k ∈ insts.map Prod.fst := (sortKeys_perm _).mem_iff.mp hk
  rcases hlv : lookupA insts k with _ | v
  · rw [lookupA_eq_none_iff] at hlv
    exact absurd hkm hlv
  · exact ⟨v, rfl⟩

/-- C5: `Manager.store(storage, force)`: when `force` or the aggregate
dirty property holds, the owned instances — iterated in ascending
primary-key order — are handed to the Storage write (the payload is a
permutation of the owned instances and its pk sequence is pairwise
ascending); otherwise the write is not invoked; afterwards the
manager-level dirty flag is false whether or not a write occurred, and
the owned collection — in particular every instance's own dirty flag —
is unchanged. -/
theorem store_spec (S : Schema) (m : Manager) (force : Bool)
    (hwf : Manager.WF S m) :
    ((Manager.store m force).1 = Option.none ↔
      (force = false ∧ Manager.dirtyAgg m = false)) ∧
    (∀ l, (Manager.store m force).1 = some l →
      l.Perm (m.insts.map Prod.snd) ∧
      ∃ ks : List PK, l.map (fun i => Model.pkOf S i) = ks.map some ∧
        ks.Pairwise (fun a b => pkLe a b = true)) ∧
    (Manager.store m force).2.mdirty = false ∧
    (Manager.store m force).2.insts = m.insts := by
  obtain ⟨hnd, hkv⟩ := hwf
  by_cases hc : (force || Manager.dirtyAgg m) = true
  · unfold Manager.store
    rw [if_pos hc]
    refine ⟨?_, ?_, rfl, rfl⟩
    · refine iff_of_false (by simp) ?_
      rintro ⟨h1, h2⟩
      rw [h1, h2] at hc
      simp at hc
    · intro l hl
      rw [Option.some.injEq] at hl
      subst hl
      exact ⟨sorter_perm m.insts hnd, sorter_pks_sorted S m.insts hnd hkv⟩
  · have hc2 : force = false ∧ Manager.dirtyAgg m = false := by
      simpa [not_or] using hc
    unfold Manager.store
    rw [if_neg hc]
    refine ⟨iff_of_true rfl hc2, ?_, rfl, rfl⟩
    intro l hl
    exact absurd hl (by simp)

/-- C5 witness: a forced store on the concrete two-instance manager
leaves the collection unchanged and the manager-level flag false. -/
theorem store_spec_witness :
    (Manager.store testMgr true).2.mdirty = false ∧
    (Manager.store testMgr true).2.insts = testMgr.insts := by
  have h := store_spec testSchema testMgr true ⟨by decide, by decide⟩
  exact ⟨h.2.2.1, h.2.2.2⟩

end Alkali
